import Mathlib

/-
  Verification development for the bevy_sudoku cell-state and
  constraint-propagation engine (src/game.rs, src/game/input.rs).

  The engine is embedded shallowly: the Bevy ECS observers of src/game.rs
  (`on_new_digit`, `on_new_candidate`, `on_clean_cell`, `check_conflict`,
  `remove_conflict`, `check_solver`) and the `kick_candidates` system become
  pure functions over a board of 81 cells.  A `commands.trigger_targets`
  call issued inside an observer is deferred in Bevy: the queued `RemoveDigit`
  trigger runs only after all observers of the current event have finished.
  The turn functions below reproduce that order: handler mutations and
  `check_conflict` first, then the deferred `remove_conflict`, then the
  `kick_candidates` system (gated on the cell having changed).

  The modules `game/cell_state.rs`, `game/position.rs` and `game/board.rs`
  of the repository are not available; the definitions taken from the spec
  instead of those files carry a doc comment starting `Modelled from the
  spec:`.  Cells are addressed by position; entity ids and positions are in
  bijection (one cell per position), so conflict sets store positions.
-/

namespace BevySudoku

/-- Cell positions 0..80, row-major. -/
abbrev Pos := Fin 81

/-- Modelled from the spec: `game/position.rs` (`CellPosition::row`) is not
under src/; spec section 3 gives `row = idx / 9`. -/
def rowOf (p : Pos) : Nat := p.val / 9

/-- Modelled from the spec: `game/position.rs` (`CellPosition::col`) is not
under src/; spec section 3 gives `col = idx % 9`. -/
def colOf (p : Pos) : Nat := p.val % 9

/-- Modelled from the spec: `game/position.rs` (`CellPosition::block`) is not
under src/; spec section 3 gives `block = (row/3)*3 + col/3`. -/
def blockOf (p : Pos) : Nat := (rowOf p / 3) * 3 + colOf p / 3

/-- The peer test inlined in `kick_candidates`, `check_conflict` and
`remove_conflict` (src/game.rs): equal row, or equal column, or equal block. -/
def SameUnit (p q : Pos) : Prop :=
  rowOf p = rowOf q ∨ colOf p = colOf q ∨ blockOf p = blockOf q

instance (p q : Pos) : Decidable (SameUnit p q) := by
  unfold SameUnit; infer_instance

/-- `CellMode` of `game/cell_state.rs` (named in src/game.rs): the per-cell
display/semantic mode. -/
inductive CellMode where
  | Digit
  | AutoCandidates
  | ManualCandidates
deriving DecidableEq, Repr

/-- `sudoku::board::CellState`: a snapshot entry is either a placed digit or
a candidate set.  Digits are 1..9; candidate sets are subsets of 1..9. -/
inductive CellState where
  | Digit (d : Nat)
  | Candidates (s : Finset Nat)
deriving DecidableEq

/-- One cell of the board.  `fixed` models the `FixedCell` marker component,
`digit` the `DigitValueCell(Option<Digit>)` component, `auto` and `manual`
the `AutoCandidates` / `ManualCandidates` bitsets, and `conflicts` the
`ConflictCount(HashSet<Entity>)` component of the cell's conflict-dot child
(board layout from the spec: one conflict set per cell, entities identified
with positions). -/
structure Cell where
  fixed : Bool
  mode : CellMode
  digit : Option Nat
  auto : Finset Nat
  manual : Finset Nat
  conflicts : Finset Pos
deriving DecidableEq

/-- The board: 81 cells addressed by position. -/
abbrev Board := Pos → Cell

/-- Modelled from the spec: `CellValue::current` lives in the missing
`game/cell_state.rs`.  Spec section 3 ("Effective value") and the section 9
interpretation: the mode alone determines which value is current —
`Digit(d)` when the mode is Digit, otherwise the candidate set of the
cell's own candidate mode.  The flag argument mirrors the call sites
(`current(**auto_mode)`) and is unused under that rule. -/
def Cell.current (c : Cell) (_autoMode : Bool) : CellState :=
  match c.mode with
  | .Digit => .Digit (c.digit.getD 0)
  | .AutoCandidates => .Candidates c.auto
  | .ManualCandidates => .Candidates c.manual

/-- Modelled from the spec: `CellValue::set` lives in the missing
`game/cell_state.rs`.  Its only claim-relevant caller is `kick_candidates`,
which writes back a `Candidates` value; spec section 5 says the candidate
eliminator writes only the `auto_candidates` field and section 4.4 says
`ManualCandidates` sets and Digit-mode peers are untouched, so a
`Candidates` write applies only to a cell in AutoCandidates mode. -/
def Cell.setCandidates (c : Cell) (s : Finset Nat) (_autoMode : Bool) : Cell :=
  match c.mode with
  | .AutoCandidates => { c with auto := s }
  | _ => c

/-- The cells collected by the scan loop of `check_conflict`
(src/game.rs:677-693): every cell sharing row, column or block with `p`
whose `DigitValueCell` holds the same digit, excluding `p` itself
(`cell_position != other_cell_position`).  The scan is not filtered on
`FixedCell`, so fixed givens participate. -/
def conflictPeers (b : Board) (p : Pos) (d : Nat) : Finset Pos :=
  Finset.univ.filter (fun q => SameUnit p q ∧ (b q).digit = some d ∧ q ≠ p)

/-- `check_conflict` (src/game.rs:667-709), observer of `NewDigit`.  The
target must come from the `Without<FixedCell>` query; each conflicting cell
gets the target inserted into its conflict set; if any conflict was found,
the target's own set additionally receives the target itself and the whole
conflict list (`insert(entity); extend(conflict_list)`). -/
def checkConflict (b : Board) (p : Pos) (d : Nat) : Board := fun q =>
  if (b p).fixed then b q
  else if conflictPeers b p d = ∅ then b q
  else if q = p then { b q with conflicts := insert p ((b q).conflicts ∪ conflictPeers b p d) }
  else if q ∈ conflictPeers b p d then { b q with conflicts := insert p (b q).conflicts }
  else b q

/-- `remove_conflict` (src/game.rs:721-756), observer of `RemoveDigit(d)` at
`p`: clears `p`'s own conflict set, and erases `p` from the conflict set of
every other cell sharing row, column or block whose current digit equals the
removed digit. -/
def removeConflict (b : Board) (p : Pos) (d : Nat) : Board := fun q =>
  if q = p then { b q with conflicts := (∅ : Finset Pos) }
  else if SameUnit p q ∧ (b q).digit = some d then { b q with conflicts := (b q).conflicts.erase p }
  else b q

/-- `kick_candidates` (src/game.rs:643-665): when the changed (selected)
cell's current value is a digit, every other cell sharing row, column or
block whose current value is a candidate set has that digit removed and the
result written back through `CellValue::set`. -/
def kickCandidates (b : Board) (flag : Bool) (p : Pos) : Board :=
  match (b p).current flag with
  | .Digit d => fun q =>
      if q ≠ p ∧ SameUnit p q then
        match (b q).current flag with
        | .Candidates cs => (b q).setCandidates (cs.erase d) flag
        | _ => b q
      else b q
  | _ => b

/-- Board mutation of `on_new_digit` (src/game.rs:502-517): for a non-fixed
target (`Without<FixedCell>`), set the mode to Digit and store the new
digit.  The old digit, if any, is emitted as a deferred `RemoveDigit`. -/
def onNewDigitBoard (b : Board) (p : Pos) (d : Nat) : Board := fun q =>
  if (b p).fixed then b q
  else if q = p then { b q with mode := CellMode.Digit, digit := some d }
  else b q

/-- The deferred `RemoveDigit` payload produced by `on_new_digit`: the old
digit when the non-fixed target held one. -/
def newDigitPending (b : Board) (p : Pos) : Option Nat :=
  if (b p).fixed then none else (b p).digit

/-- Board mutation of `on_new_candidate` (src/game.rs:519-561) for a
non-fixed target.  In Digit mode the digit is dropped and the global flag
selects the candidate mode entered and the set receiving the insert; in a
candidate mode the digit is inserted into that mode's set.  `insert` of the
missing `game/cell_state.rs` is modelled from the spec (section 4.2): an
idempotent insert, never a flip. -/
def onNewCandidateBoard (b : Board) (flag : Bool) (p : Pos) (d : Nat) : Board := fun q =>
  if (b p).fixed then b q
  else if q = p then
    match (b p).mode with
    | .Digit =>
        if flag then { b q with digit := none, mode := CellMode.AutoCandidates, auto := insert d (b q).auto }
        else { b q with digit := none, mode := CellMode.ManualCandidates, manual := insert d (b q).manual }
    | .AutoCandidates => { b q with auto := insert d (b q).auto }
    | .ManualCandidates => { b q with manual := insert d (b q).manual }
  else b q

/-- The deferred `RemoveDigit` payload produced by `on_new_candidate`: only
the Digit branch emits, carrying the old digit when present. -/
def newCandidatePending (b : Board) (p : Pos) : Option Nat :=
  if (b p).fixed then none
  else match (b p).mode with
    | .Digit => (b p).digit
    | _ => none

/-- Board mutation of `on_clean_cell` (src/game.rs:563-591) for a non-fixed
target: in Digit mode, drop the digit and enter the candidate mode selected
by the global flag (the candidate sets are not touched); in AutoCandidates
mode, do nothing; in ManualCandidates mode, empty the manual set. -/
def onCleanCellBoard (b : Board) (flag : Bool) (p : Pos) : Board := fun q =>
  if (b p).fixed then b q
  else if q = p then
    match (b p).mode with
    | .Digit => { b q with digit := none,
                           mode := if flag then CellMode.AutoCandidates else CellMode.ManualCandidates }
    | .AutoCandidates => b q
    | .ManualCandidates => { b q with manual := (∅ : Finset Nat) }
  else b q

/-- The deferred `RemoveDigit` payload produced by `on_clean_cell`. -/
def cleanCellPending (b : Board) (p : Pos) : Option Nat :=
  if (b p).fixed then none
  else match (b p).mode with
    | .Digit => (b p).digit
    | _ => none

/-- Flush of the deferred `RemoveDigit` trigger: Bevy applies the queued
`commands.trigger_targets(RemoveDigit(old), ...)` after every observer of
the original event has run, invoking `remove_conflict`. -/
def processPending (b : Board) (p : Pos) : Option Nat → Board
  | some old => removeConflict b p old
  | none => b

/-- One full engine turn for a `NewDigit` event targeting `p`: the
`on_new_digit` mutations and `check_conflict` run as observers, then the
deferred `RemoveDigit` is flushed into `remove_conflict`, then the
`kick_candidates` system runs on the changed cell (`Changed<CellValue>`
fires only when the handler mutated the non-fixed target). -/
def newDigitTurn (b : Board) (flag : Bool) (p : Pos) (d : Nat) : Board :=
  let b2 := checkConflict (onNewDigitBoard b p d) p d
  let b3 := processPending b2 p (newDigitPending b p)
  if (b p).fixed then b3 else kickCandidates b3 flag p

/-- One full engine turn for a `NewCandidate` event targeting `p`. -/
def newCandidateTurn (b : Board) (flag : Bool) (p : Pos) (d : Nat) : Board :=
  let b1 := onNewCandidateBoard b flag p d
  let b3 := processPending b1 p (newCandidatePending b p)
  if (b p).fixed then b3 else kickCandidates b3 flag p

/-- One full engine turn for a `CleanCell` event targeting `p`. -/
def cleanCellTurn (b : Board) (flag : Bool) (p : Pos) : Board :=
  let b1 := onCleanCellBoard b flag p
  let b3 := processPending b1 p (cleanCellPending b p)
  if (b p).fixed then b3 else kickCandidates b3 flag p

/-- The three external domain events a cell can be targeted with. -/
inductive Event where
  | placeDigit (d : Nat)
  | toggleCandidate (d : Nat)
  | clearCell
deriving DecidableEq

/-- Dispatch one external event targeting `p` through its full turn. -/
def applyEvent (b : Board) (flag : Bool) (p : Pos) : Event → Board
  | .placeDigit d => newDigitTurn b flag p d
  | .toggleCandidate d => newCandidateTurn b flag p d
  | .clearCell => cleanCellTurn b flag p

/-- Run a sequence of events targeting `p`, each with its own value of the
global auto-candidate flag. -/
def runEvents (b : Board) (p : Pos) : List (Event × Bool) → Board :=
  List.foldl (fun acc e => applyEvent acc e.2 p e.1) b

/-- The 81-entry snapshot built by `check_solver` (src/game.rs:599-605): a
list initialised to empty candidate sets, then written at every position
with that cell's current value; since each of the 81 positions is written
exactly once, the result maps each position to its cell's current value. -/
def buildSnapshot (b : Board) (flag : Bool) : Pos → CellState :=
  fun i => (b i).current flag

/-- The digit of a snapshot entry, if it is one. -/
def entryDigit : CellState → Option Nat
  | .Digit d => some d
  | .Candidates _ => none

/-- Modelled from the spec: the external constraint solver
(`StrategySolver::from_grid_state(list).is_solved()`) is an out-of-scope
collaborator; spec section 6 and the glossary define "solved" as a grid
whose cells all hold a placed digit with row/column/block uniqueness. -/
def isSolved (snap : Pos → CellState) : Bool :=
  decide ((∀ i : Pos, (entryDigit (snap i)).isSome) ∧
    ∀ i j : Pos, i ≠ j → SameUnit i j → entryDigit (snap i) ≠ entryDigit (snap j))

/-- `check_solver` (src/game.rs:593-611): rebuild the snapshot and ask the
solver whether the grid is solved. -/
def checkSolver (b : Board) (flag : Bool) : Bool :=
  isSolved (buildSnapshot b flag)

/-- Engine state seen by the solver synchronizer: the board plus the global
solved flag held in `SudokuManager`. -/
structure EngineState where
  board : Board
  solved : Bool

/-- The solver-synchronization step in isolation: recompute the solved flag
from a snapshot of the board; cells are not written. -/
def solverSync (gs : EngineState) (flag : Bool) : EngineState :=
  { gs with solved := checkSolver gs.board flag }

/-- The `NewDigit` turn at engine-state level: `check_solver` observes every
`NewDigit` after the handler and conflict detector ran, so the solved flag
is computed from that intermediate board; the deferred removal and the kick
follow. -/
def newDigitEngineTurn (gs : EngineState) (flag : Bool) (p : Pos) (d : Nat) : EngineState :=
  let b2 := checkConflict (onNewDigitBoard gs.board p d) p d
  let sv := checkSolver b2 flag
  let b3 := processPending b2 p (newDigitPending gs.board p)
  ⟨if (gs.board p).fixed then b3 else kickCandidates b3 flag p, sv⟩

/-- The digit-key decoding chain of `keyboard_input`
(src/game/input.rs:46-68): the first pressed key of 1..9 wins, then key 0,
else no event. -/
def keyboardNum (k0 k1 k2 k3 k4 k5 k6 k7 k8 k9 : Bool) : Option Nat :=
  if k1 then some 1 else if k2 then some 2 else if k3 then some 3
  else if k4 then some 4 else if k5 then some 5 else if k6 then some 6
  else if k7 then some 7 else if k8 then some 8 else if k9 then some 9
  else if k0 then some 0 else none

/-- Modelled from the spec: `sudoku::board::Digit::new` (the external
library constructor called by `NewDigit::new` and `NewCandidate::new`,
src/game.rs:625-632) accepts only 1..9 and panics otherwise; `none` models
the panic. -/
def digitNew (d : Nat) : Option Nat :=
  if 1 ≤ d ∧ d ≤ 9 then some d else none

/-- The event-construction pipeline of `keyboard_input`
(src/game/input.rs:70-76): if some digit key was pressed, `NewDigit::new`
(or `NewCandidate::new`) runs `Digit::new` on it.  `some none` means a key
was decoded but the constructor panicked. -/
def keyboardDigitEvent (k0 k1 k2 k3 k4 k5 k6 k7 k8 k9 : Bool) : Option (Option Nat) :=
  (keyboardNum k0 k1 k2 k3 k4 k5 k6 k7 k8 k9).map digitNew

/-- Refinement model written from the spec's words (section 4.2): the
`DigitRemoved(old_d)` side event "must be fully processed (conflict-set
cleanup) before the triggering transition's new state is committed".  The
removal therefore runs on the pre-transition board, then the new digit is
committed, then conflict detection and the kick run. -/
def specOrderedNewDigitTurn (b : Board) (flag : Bool) (p : Pos) (d : Nat) : Board :=
  if (b p).fixed then b
  else
    let b1 := match (b p).digit with
      | some old => removeConflict b p old
      | none => b
    let b2 := onNewDigitBoard b1 p d
    let b3 := checkConflict b2 p d
    kickCandidates b3 flag p

/-- The self-update loop of `check_conflict` (src/game.rs:699-705) over the
target's children: the first child carrying a `ConflictCount` receives the
target entity and the conflict list, and the loop returns immediately, so
later children are never touched. -/
def insertSelfChildren (children : List (Finset Pos)) (e : Pos) (clist : Finset Pos) :
    List (Finset Pos) :=
  match children with
  | [] => []
  | c :: rest => (insert e (c ∪ clist)) :: rest

/-- Conflict symmetry (spec invariant I2). -/
def SymmConf (b : Board) : Prop :=
  ∀ p q : Pos, p ∈ (b q).conflicts ↔ q ∈ (b p).conflicts

/-- Conflict bookkeeping: membership of another cell's conflict set means
both cells are peers currently holding the same placed digit. -/
def ConfDigits (b : Board) : Prop :=
  ∀ p q : Pos, p ≠ q → p ∈ (b q).conflicts →
    SameUnit p q ∧ (b q).digit ≠ none ∧ (b p).digit = (b q).digit

/-- Self membership of a conflict set implies a placed digit. -/
def SelfConf (b : Board) : Prop :=
  ∀ p : Pos, p ∈ (b p).conflicts → (b p).digit ≠ none

/-- The conflict-set invariant preserved by replacement-free play. -/
def ConflictInv (b : Board) : Prop :=
  SymmConf b ∧ ConfDigits b ∧ SelfConf b

instance (b : Board) : Decidable (SymmConf b) := by
  unfold SymmConf; infer_instance

instance (b : Board) : Decidable (ConfDigits b) := by
  unfold ConfDigits; infer_instance

instance (b : Board) : Decidable (SelfConf b) := by
  unfold SelfConf; infer_instance

instance (b : Board) : Decidable (ConflictInv b) := by
  unfold ConflictInv; infer_instance

/-- An open cell: no given, empty sets, auto-candidate mode. -/
def blankCell : Cell :=
  ⟨false, CellMode.AutoCandidates, none, ∅, ∅, ∅⟩

/-- A board of open cells only. -/
def blankBoard : Board := fun _ => blankCell

/-- Example board: cell 0 holds a placed 3; its row peer at cell 1 holds a
placed 5; no conflicts recorded. -/
def exampleBoardA : Board := fun q =>
  if q = 0 then { blankCell with mode := CellMode.Digit, digit := some 3 }
  else if q = 1 then { blankCell with mode := CellMode.Digit, digit := some 5 }
  else blankCell

/-- Example board: cell 0 is in ManualCandidates mode with manual set {3}. -/
def exampleBoardB : Board := fun q =>
  if q = 0 then { blankCell with mode := CellMode.ManualCandidates, manual := {3} }
  else blankCell

/-- A board whose cells are all fixed givens. -/
def fixedBoard : Board := fun _ =>
  { blankCell with fixed := true, mode := CellMode.Digit, digit := some 1 }

/-! ### Helper lemmas -/

theorem sameUnit_refl (p : Pos) : SameUnit p p := Or.inl rfl

theorem sameUnit_symm {p q : Pos} (h : SameUnit p q) : SameUnit q p := by
  rcases h with h | h | h
  · exact Or.inl h.symm
  · exact Or.inr (Or.inl h.symm)
  · exact Or.inr (Or.inr h.symm)

theorem mem_conflictPeers {b : Board} {p q : Pos} {d : Nat} :
    q ∈ conflictPeers b p d ↔ SameUnit p q ∧ (b q).digit = some d ∧ q ≠ p := by
  simp [conflictPeers]

/-- `kick_candidates` either leaves a cell alone or erases one digit from
its auto-candidate set. -/
theorem kick_apply (b : Board) (flag : Bool) (p q : Pos) :
    kickCandidates b flag p q = b q ∨
      ∃ d, kickCandidates b flag p q = { b q with auto := (b q).auto.erase d } := by
  unfold kickCandidates
  cases heq : (b p).current flag with
  | Candidates s => simp [heq]
  | Digit d =>
    simp only [heq]
    by_cases hq : q ≠ p ∧ SameUnit p q
    · simp only [if_pos hq]
      cases heq2 : (b q).current flag with
      | Digit e => simp [heq2]
      | Candidates cs =>
        simp only [heq2]
        unfold Cell.setCandidates
        cases hm : (b q).mode with
        | AutoCandidates =>
          simp only [hm]
          right
          refine ⟨d, ?_⟩
          have hcs : cs = (b q).auto := by
            unfold Cell.current at heq2
            rw [hm] at heq2
            cases heq2
            rfl
          rw [hcs]
        | Digit => simp [hm]
        | ManualCandidates => simp [hm]
    · simp [hq]

theorem kick_conflicts (b : Board) (flag : Bool) (p q : Pos) :
    (kickCandidates b flag p q).conflicts = (b q).conflicts := by
  rcases kick_apply b flag p q with h | ⟨d, h⟩ <;> simp [h]

theorem kick_digit (b : Board) (flag : Bool) (p q : Pos) :
    (kickCandidates b flag p q).digit = (b q).digit := by
  rcases kick_apply b flag p q with h | ⟨d, h⟩ <;> simp [h]

theorem kick_mode (b : Board) (flag : Bool) (p q : Pos) :
    (kickCandidates b flag p q).mode = (b q).mode := by
  rcases kick_apply b flag p q with h | ⟨d, h⟩ <;> simp [h]

theorem kick_manual (b : Board) (flag : Bool) (p q : Pos) :
    (kickCandidates b flag p q).manual = (b q).manual := by
  rcases kick_apply b flag p q with h | ⟨d, h⟩ <;> simp [h]

theorem kick_auto_subset (b : Board) (flag : Bool) (p q : Pos) :
    (kickCandidates b flag p q).auto ⊆ (b q).auto := by
  rcases kick_apply b flag p q with h | ⟨d, h⟩
  · rw [h]
  · rw [h]; exact Finset.erase_subset d (b q).auto

/-- When the kicker's current value is not a digit the kick system does
nothing. -/
theorem kick_nondigit {b : Board} {flag : Bool} {p : Pos}
    (h : ∀ d, (b p).current flag ≠ CellState.Digit d) :
    kickCandidates b flag p = b := by
  unfold kickCandidates
  split
  case h_1 d heq => exact absurd heq (h d)
  case h_2 => rfl

/-- `check_conflict` either leaves a cell alone or only grows its conflict
set. -/
theorem checkConflict_apply (b : Board) (p : Pos) (d : Nat) (q : Pos) :
    checkConflict b p d q = b q ∨
      checkConflict b p d q = { b q with conflicts := insert p ((b q).conflicts ∪ conflictPeers b p d) } ∨
      checkConflict b p d q = { b q with conflicts := insert p (b q).conflicts } := by
  unfold checkConflict
  split
  · left; rfl
  · split
    · left; rfl
    · split
      · right; left; rfl
      · split
        · right; right; rfl
        · left; rfl

theorem checkConflict_digit (b : Board) (p : Pos) (d : Nat) (q : Pos) :
    (checkConflict b p d q).digit = (b q).digit := by
  rcases checkConflict_apply b p d q with h | h | h <;> simp [h]

theorem checkConflict_mode (b : Board) (p : Pos) (d : Nat) (q : Pos) :
    (checkConflict b p d q).mode = (b q).mode := by
  rcases checkConflict_apply b p d q with h | h | h <;> simp [h]

theorem checkConflict_fixedF (b : Board) (p : Pos) (d : Nat) (q : Pos) :
    (checkConflict b p d q).fixed = (b q).fixed := by
  rcases checkConflict_apply b p d q with h | h | h <;> simp [h]

theorem checkConflict_auto (b : Board) (p : Pos) (d : Nat) (q : Pos) :
    (checkConflict b p d q).auto = (b q).auto := by
  rcases checkConflict_apply b p d q with h | h | h <;> simp [h]

theorem checkConflict_manual (b : Board) (p : Pos) (d : Nat) (q : Pos) :
    (checkConflict b p d q).manual = (b q).manual := by
  rcases checkConflict_apply b p d q with h | h | h <;> simp [h]

theorem removeConflict_apply (b : Board) (p : Pos) (d : Nat) (q : Pos) :
    removeConflict b p d q = b q ∨
      removeConflict b p d q = { b q with conflicts := (∅ : Finset Pos) } ∨
      removeConflict b p d q = { b q with conflicts := (b q).conflicts.erase p } := by
  unfold removeConflict
  split
  · right; left; rfl
  · split
    · right; right; rfl
    · left; rfl

theorem removeConflict_digit (b : Board) (p : Pos) (d : Nat) (q : Pos) :
    (removeConflict b p d q).digit = (b q).digit := by
  rcases removeConflict_apply b p d q with h | h | h <;> simp [h]

theorem removeConflict_mode (b : Board) (p : Pos) (d : Nat) (q : Pos) :
    (removeConflict b p d q).mode = (b q).mode := by
  rcases removeConflict_apply b p d q with h | h | h <;> simp [h]

theorem removeConflict_auto (b : Board) (p : Pos) (d : Nat) (q : Pos) :
    (removeConflict b p d q).auto = (b q).auto := by
  rcases removeConflict_apply b p d q with h | h | h <;> simp [h]

theorem removeConflict_manual (b : Board) (p : Pos) (d : Nat) (q : Pos) :
    (removeConflict b p d q).manual = (b q).manual := by
  rcases removeConflict_apply b p d q with h | h | h <;> simp [h]

theorem processPending_digit (b : Board) (p : Pos) (o : Option Nat) (q : Pos) :
    (processPending b p o q).digit = (b q).digit := by
  cases o with
  | none => rfl
  | some old => exact removeConflict_digit b p old q

theorem processPending_mode (b : Board) (p : Pos) (o : Option Nat) (q : Pos) :
    (processPending b p o q).mode = (b q).mode := by
  cases o with
  | none => rfl
  | some old => exact removeConflict_mode b p old q

theorem processPending_auto (b : Board) (p : Pos) (o : Option Nat) (q : Pos) :
    (processPending b p o q).auto = (b q).auto := by
  cases o with
  | none => rfl
  | some old => exact removeConflict_auto b p old q

theorem processPending_manual (b : Board) (p : Pos) (o : Option Nat) (q : Pos) :
    (processPending b p o q).manual = (b q).manual := by
  cases o with
  | none => rfl
  | some old => exact removeConflict_manual b p old q

/-- Turns on a fixed target are complete no-ops. -/
theorem newDigitTurn_fixed {b : Board} {p : Pos} (hf : (b p).fixed = true)
    (flag : Bool) (d : Nat) : newDigitTurn b flag p d = b := by
  have h1 : onNewDigitBoard b p d = b := funext fun q => by simp [onNewDigitBoard, hf]
  have h2 : checkConflict b p d = b := funext fun q => by simp [checkConflict, hf]
  simp [newDigitTurn, h1, h2, newDigitPending, hf, processPending]

theorem newCandidateTurn_fixed {b : Board} {p : Pos} (hf : (b p).fixed = true)
    (flag : Bool) (d : Nat) : newCandidateTurn b flag p d = b := by
  have h1 : onNewCandidateBoard b flag p d = b := funext fun q => by
    simp [onNewCandidateBoard, hf]
  simp [newCandidateTurn, h1, newCandidatePending, hf, processPending]

theorem cleanCellTurn_fixed {b : Board} {p : Pos} (hf : (b p).fixed = true)
    (flag : Bool) : cleanCellTurn b flag p = b := by
  have h1 : onCleanCellBoard b flag p = b := funext fun q => by
    simp [onCleanCellBoard, hf]
  simp [cleanCellTurn, h1, cleanCellPending, hf, processPending]

theorem applyEvent_fixed {b : Board} {p : Pos} (hf : (b p).fixed = true)
    (flag : Bool) (e : Event) : applyEvent b flag p e = b := by
  cases e with
  | placeDigit d => exact newDigitTurn_fixed hf flag d
  | toggleCandidate d => exact newCandidateTurn_fixed hf flag d
  | clearCell => exact cleanCellTurn_fixed hf flag

/-- A cell whose mode is not Digit is never a kicker. -/
theorem kick_of_mode_ne {b : Board} {flag : Bool} {p : Pos}
    (h : (b p).mode ≠ CellMode.Digit) : kickCandidates b flag p = b := by
  apply kick_nondigit
  intro d hd
  unfold Cell.current at hd
  cases hm : (b p).mode with
  | Digit => exact h hm
  | AutoCandidates => rw [hm] at hd; cases hd
  | ManualCandidates => rw [hm] at hd; cases hd

/-- `on_new_candidate` always leaves its non-fixed target in a candidate
mode. -/
theorem onNewCandidateBoard_mode_self (b : Board) (flag : Bool) (p : Pos) (d : Nat)
    (hf : (b p).fixed = false) :
    (onNewCandidateBoard b flag p d p).mode ≠ CellMode.Digit := by
  simp only [onNewCandidateBoard, hf, Bool.false_eq_true, if_false, if_pos rfl]
  cases hm : (b p).mode <;> cases flag <;> simp

/-- `on_clean_cell` always leaves its non-fixed target in a candidate
mode, except that an AutoCandidates cell is left alone. -/
theorem onCleanCellBoard_mode_self (b : Board) (flag : Bool) (p : Pos)
    (hf : (b p).fixed = false) :
    (onCleanCellBoard b flag p p).mode ≠ CellMode.Digit := by
  simp only [onCleanCellBoard, hf, Bool.false_eq_true, if_false, if_pos rfl]
  cases hmode : (b p).mode <;> cases flag <;> simp [hmode]

/-- On a non-fixed target the candidate turn with a non-Digit mode is just
the handler mutation: no removal is emitted and the kick system finds a
candidate value. -/
theorem newCandidateTurn_eq_nondigit {b : Board} {flag : Bool} {p : Pos} {d : Nat}
    (hf : (b p).fixed = false) (hm : (b p).mode ≠ CellMode.Digit) :
    newCandidateTurn b flag p d = onNewCandidateBoard b flag p d := by
  have hpend : newCandidatePending b p = none := by
    unfold newCandidatePending
    rw [hf]
    cases hmode : (b p).mode <;> simp_all
  unfold newCandidateTurn
  rw [hpend, hf]
  simp only [Bool.false_eq_true, if_false, processPending]
  exact kick_of_mode_ne (onNewCandidateBoard_mode_self b flag p d hf)

/-- On a non-fixed target the clean turn is the handler mutation followed
by the deferred removal; the kick system finds a candidate value. -/
theorem cleanCellTurn_eq {b : Board} {flag : Bool} {p : Pos}
    (hf : (b p).fixed = false) :
    cleanCellTurn b flag p =
      processPending (onCleanCellBoard b flag p) p (cleanCellPending b p) := by
  unfold cleanCellTurn
  rw [hf]
  simp only [Bool.false_eq_true, if_false]
  apply kick_of_mode_ne
  rw [processPending_mode]
  exact onCleanCellBoard_mode_self b flag p hf

/-! ### Claim theorems -/

/-- C1: the spec requires a digit outside 1..9 — in particular the 0 from
the keyboard digit-0 key — to be rejected as a no-op with an invalid-input
signal and no crash.  The code instead decodes the digit-0 key to `Some(0)`
(src/game/input.rs:64-65) and hands it to `NewDigit::new`, whose
`Digit::new(0)` panics: the pipeline produces an attempted event
construction (`some _`) that ends in the modelled panic (`none`), not a
rejected no-op. -/
theorem C1_digit_zero_crash :
    keyboardDigitEvent true false false false false false false false false false =
      some none ∧ digitNew 0 = none := by
  constructor <;> rfl

/-- C2: every sequence of `NewDigit`, `NewCandidate` and `CleanCell` events
targeting a fixed cell leaves its mode, digit and both candidate sets
unchanged, for any per-event values of the global auto-candidate flag. -/
theorem C2_fixed_cell_immutable (b : Board) (p : Pos) (evs : List (Event × Bool))
    (hf : (b p).fixed = true) :
    (runEvents b p evs p).mode = (b p).mode ∧
      (runEvents b p evs p).digit = (b p).digit ∧
      (runEvents b p evs p).auto = (b p).auto ∧
      (runEvents b p evs p).manual = (b p).manual := by
  have hrun : runEvents b p evs = b := by
    induction evs with
    | nil => rfl
    | cons e t ih =>
        unfold runEvents
        rw [List.foldl_cons, applyEvent_fixed hf]
        exact ih
  rw [hrun]
  exact ⟨rfl, rfl, rfl, rfl⟩

theorem C2_fixed_cell_immutable_w :
    (fixedBoard 0).fixed = true ∧
      (runEvents fixedBoard 0 [(Event.placeDigit 5, true), (Event.clearCell, false)] 0).mode =
        (fixedBoard 0).mode := by
  exact ⟨rfl, (C2_fixed_cell_immutable fixedBoard 0
    [(Event.placeDigit 5, true), (Event.clearCell, false)] rfl).1⟩

/-- C5: the candidate eliminator (`kick_candidates` composed with the
spec-modelled `CellValue::set` write path) never touches any cell's manual
candidate set and only ever removes bits from auto candidate sets, for
every board, target and value of the global auto-candidate flag. -/
theorem C5_kick_manual_untouched (b : Board) (flag : Bool) (p q : Pos) :
    (kickCandidates b flag p q).manual = (b q).manual ∧
      (kickCandidates b flag p q).auto ⊆ (b q).auto := by
  exact ⟨kick_manual b flag p q, kick_auto_subset b flag p q⟩

/-- C7 counterexample: the claim requires the candidate set of the mode
entered from Digit mode by `ClearCell` to be empty.  On a cell whose
manual set was {3} before it received digit 5, clearing with the global
flag false enters ManualCandidates mode with digit gone — but the manual
set is still {3}, because `on_clean_cell` never clears the sets of the
entered mode (src/game.rs:576-585). -/
theorem C7_clear_cell_cex :
    (cleanCellTurn (newDigitTurn exampleBoardB false 0 5) false 0 0).mode =
        CellMode.ManualCandidates ∧
      (cleanCellTurn (newDigitTurn exampleBoardB false 0 5) false 0 0).digit = none ∧
      (cleanCellTurn (newDigitTurn exampleBoardB false 0 5) false 0 0).manual ≠
        (∅ : Finset Nat) := by
  refine ⟨by decide, by decide, by decide⟩

/-- C7 amended: `ClearCell` on a non-fixed cell follows the transition
table, except that the candidate set of the mode entered from Digit mode
retains its previous contents instead of being empty: from Digit mode the
digit is dropped, the removal is processed (the cell's conflict set ends
empty) and the flag selects the entered candidate mode, both candidate
sets unchanged; in AutoCandidates mode the event is a no-op; in
ManualCandidates mode the manual set becomes empty. -/
theorem C7_clear_cell_table (b : Board) (flag : Bool) (p : Pos)
    (hf : (b p).fixed = false) :
    (∀ old, (b p).mode = CellMode.Digit → (b p).digit = some old →
        (cleanCellTurn b flag p p).digit = none ∧
          (cleanCellTurn b flag p p).mode =
            (if flag then CellMode.AutoCandidates else CellMode.ManualCandidates) ∧
          (cleanCellTurn b flag p p).auto = (b p).auto ∧
          (cleanCellTurn b flag p p).manual = (b p).manual ∧
          (cleanCellTurn b flag p p).conflicts = (∅ : Finset Pos)) ∧
      ((b p).mode = CellMode.AutoCandidates → cleanCellTurn b flag p = b) ∧
      ((b p).mode = CellMode.ManualCandidates →
        (cleanCellTurn b flag p p).manual = (∅ : Finset Nat) ∧
          (cleanCellTurn b flag p p).digit = (b p).digit ∧
          (cleanCellTurn b flag p p).mode = CellMode.ManualCandidates ∧
          (cleanCellTurn b flag p p).auto = (b p).auto) := by
  rw [cleanCellTurn_eq hf]
  refine ⟨?_, ?_, ?_⟩
  · intro old hmode hold
    have hpend : cleanCellPending b p = some old := by
      simp [cleanCellPending, hf, hmode, hold]
    rw [hpend]
    have hb1 : onCleanCellBoard b flag p p =
        { b p with
          digit := none
          mode := if flag then CellMode.AutoCandidates else CellMode.ManualCandidates } := by
      simp [onCleanCellBoard, hf, hmode]
    have hrc : processPending (onCleanCellBoard b flag p) p (some old) p =
        { onCleanCellBoard b flag p p with conflicts := (∅ : Finset Pos) } := by
      simp [processPending, removeConflict]
    rw [hrc, hb1]
    exact ⟨rfl, rfl, rfl, rfl, rfl⟩
  · intro hmode
    have hb1 : onCleanCellBoard b flag p = b := by
      funext q
      by_cases hq : q = p
      · subst hq; simp [onCleanCellBoard, hf, hmode]
      · simp [onCleanCellBoard, hq]
    have hpend : cleanCellPending b p = none := by
      simp [cleanCellPending, hf, hmode]
    rw [hpend, hb1]
    rfl
  · intro hmode
    have hpend : cleanCellPending b p = none := by
      simp [cleanCellPending, hf, hmode]
    rw [hpend]
    simp only [processPending]
    have hb1 : onCleanCellBoard b flag p p = { b p with manual := (∅ : Finset Nat) } := by
      simp [onCleanCellBoard, hf, hmode]
    rw [hb1]
    exact ⟨rfl, rfl, hmode, rfl⟩

theorem C7_clear_cell_table_w :
    (cleanCellTurn exampleBoardA true 0 0).digit = none ∧
      (cleanCellTurn exampleBoardA true 0 0).conflicts = (∅ : Finset Pos) := by
  have h := (C7_clear_cell_table exampleBoardA true 0 (by decide)).1 3 (by decide) (by decide)
  exact ⟨h.1, h.2.2.2.2⟩

/-- C8: applying `ToggleCandidate(d)` twice to a cell in AutoCandidates or
ManualCandidates mode yields the same state as applying it once — the
spec-modelled insert of `on_new_candidate` is idempotent, never a
removal. -/
theorem C8_toggle_idempotent (b : Board) (flag : Bool) (p : Pos) (d : Nat)
    (hm : (b p).mode = CellMode.AutoCandidates ∨ (b p).mode = CellMode.ManualCandidates) :
    newCandidateTurn (newCandidateTurn b flag p d) flag p d =
      newCandidateTurn b flag p d := by
  by_cases hf : (b p).fixed = true
  · rw [newCandidateTurn_fixed hf, newCandidateTurn_fixed hf]
  · have hf' : (b p).fixed = false := by simpa using hf
    have hmd : (b p).mode ≠ CellMode.Digit := by
      rcases hm with h | h <;> simp [h]
    rw [newCandidateTurn_eq_nondigit hf' hmd]
    have hf1 : (onNewCandidateBoard b flag p d p).fixed = false := by
      rcases hm with hmode | hmode <;> simp [onNewCandidateBoard, hf', hmode]
    have hm1 : (onNewCandidateBoard b flag p d p).mode ≠ CellMode.Digit := by
      rcases hm with hmode | hmode <;> simp [onNewCandidateBoard, hf', hmode]
    rw [newCandidateTurn_eq_nondigit hf1 hm1]
    funext q
    rcases hm with hmode | hmode <;> by_cases hq : q = p <;>
      simp [onNewCandidateBoard, hf', hmode, hq, Finset.insert_idem]

theorem C8_toggle_idempotent_w :
    newCandidateTurn (newCandidateTurn blankBoard true 0 4) true 0 4 =
      newCandidateTurn blankBoard true 0 4 :=
  C8_toggle_idempotent blankBoard true 0 4 (Or.inl rfl)

/-- A kick by a digit-valued kicker on a peer in AutoCandidates mode
erases the digit from that peer's auto set. -/
theorem kick_peer_auto {x : Board} {flag : Bool} {p q : Pos} {d : Nat}
    (hcur : (x p).current flag = CellState.Digit d)
    (hq : q ≠ p) (hsu : SameUnit p q) (hm : (x q).mode = CellMode.AutoCandidates) :
    kickCandidates x flag p q = { x q with auto := (x q).auto.erase d } := by
  have hcq : (x q).current flag = CellState.Candidates (x q).auto := by
    unfold Cell.current; rw [hm]
  simp only [kickCandidates, hcur, hcq, Cell.setCandidates, hm]
  simp [hq, hsu]

/-- A kick by a digit-valued kicker leaves any cell not in AutoCandidates
mode untouched. -/
theorem kick_peer_nonauto {x : Board} {flag : Bool} {p q : Pos} {d : Nat}
    (hcur : (x p).current flag = CellState.Digit d)
    (hm : (x q).mode ≠ CellMode.AutoCandidates) :
    kickCandidates x flag p q = x q := by
  simp only [kickCandidates, hcur]
  by_cases hcond : q ≠ p ∧ SameUnit p q
  · simp only [if_pos hcond]
    cases hmq : (x q).mode with
    | Digit =>
        have hcq : (x q).current flag = CellState.Digit ((x q).digit.getD 0) := by
          unfold Cell.current; rw [hmq]
        simp only [hcq]
    | AutoCandidates => exact absurd hmq hm
    | ManualCandidates =>
        have hcq : (x q).current flag = CellState.Candidates (x q).manual := by
          unfold Cell.current; rw [hmq]
        simp only [hcq, Cell.setCandidates, hmq]
  · simp [hcond]

/-- The kick never touches a non-peer, nor the kicker itself. -/
theorem kick_notpeer {x : Board} {flag : Bool} {p q : Pos}
    (hcond : ¬(q ≠ p ∧ SameUnit p q)) :
    kickCandidates x flag p q = x q := by
  unfold kickCandidates
  cases hcur : (x p).current flag with
  | Digit e => simp [hcond]
  | Candidates s => simp

/-- On a non-fixed target the candidate turn is the handler mutation
followed by the deferred removal; the kick system finds a candidate
value. -/
theorem newCandidateTurn_eq {b : Board} {flag : Bool} {p : Pos} {d : Nat}
    (hf : (b p).fixed = false) :
    newCandidateTurn b flag p d =
      processPending (onNewCandidateBoard b flag p d) p (newCandidatePending b p) := by
  unfold newCandidateTurn
  rw [hf]
  simp only [Bool.false_eq_true, if_false]
  apply kick_of_mode_ne
  rw [processPending_mode]
  exact onNewCandidateBoard_mode_self b flag p d hf

/-- C10: when a placement at a non-fixed cell finds at least one
same-digit peer, `check_conflict` inserts the placing cell's own entity
into its own conflict set — on top of the conflicting peers, although the
cell is never its own peer — and its self-update writes only the first
`ConflictCount` child before returning. -/
theorem C10_self_conflict_first_child (b : Board) (p : Pos) (d : Nat)
    (hf : (b p).fixed = false) (hC : conflictPeers b p d ≠ ∅) :
    p ∈ (checkConflict b p d p).conflicts ∧
      conflictPeers b p d ⊆ (checkConflict b p d p).conflicts ∧
      p ∉ conflictPeers b p d ∧
      (∀ (c : Finset Pos) (rest : List (Finset Pos)) (e : Pos) (s : Finset Pos),
        insertSelfChildren (c :: rest) e s = (insert e (c ∪ s)) :: rest) ∧
      [(checkConflict b p d p).conflicts] =
        insertSelfChildren [(b p).conflicts] p (conflictPeers b p d) := by
  have hcc : checkConflict b p d p =
      { b p with conflicts := insert p ((b p).conflicts ∪ conflictPeers b p d) } := by
    simp [checkConflict, hf, hC]
  refine ⟨?_, ?_, ?_, ?_, ?_⟩
  · rw [hcc]; exact Finset.mem_insert_self p _
  · rw [hcc]
    intro x hx
    simp only [Finset.mem_insert, Finset.mem_union]
    exact Or.inr (Or.inr hx)
  · simp [mem_conflictPeers]
  · intro c rest e s; rfl
  · rw [hcc]; rfl

theorem C10_self_conflict_first_child_w :
    (0 : Pos) ∈ (checkConflict exampleBoardA 0 5 0).conflicts :=
  (C10_self_conflict_first_child exampleBoardA 0 5 (by decide) (by decide)).1

/-- C9: the solver synchronizer mutates no cell, its snapshot is the
position-indexed family of current (effective) values, the solved flag of
a `NewDigit` turn is the solver verdict on the post-handler board, and a
snapshot containing any non-Digit cell reports not-yet-solved instead of
failing. -/
theorem C9_solver_sync (gs : EngineState) (flag : Bool) :
    (solverSync gs flag).board = gs.board ∧
      (∀ i : Pos, buildSnapshot gs.board flag i = (gs.board i).current flag) ∧
      (∀ (p : Pos) (d : Nat),
        (newDigitEngineTurn gs flag p d).solved =
          checkSolver (checkConflict (onNewDigitBoard gs.board p d) p d) flag) ∧
      ((∃ i : Pos, (gs.board i).mode ≠ CellMode.Digit) →
        checkSolver gs.board flag = false) := by
  refine ⟨rfl, fun i => rfl, fun p d => rfl, ?_⟩
  rintro ⟨i, hi⟩
  unfold checkSolver isSolved
  rw [decide_eq_false_iff_not]
  rintro ⟨hall, _⟩
  have h := hall i
  unfold buildSnapshot Cell.current at h
  cases hmode : (gs.board i).mode with
  | Digit => exact hi hmode
  | AutoCandidates => rw [hmode] at h; simp [entryDigit] at h
  | ManualCandidates => rw [hmode] at h; simp [entryDigit] at h

theorem C9_solver_sync_w :
    checkSolver blankBoard false = false :=
  (C9_solver_sync ⟨blankBoard, false⟩ false).2.2.2 ⟨0, by decide⟩

/-- C4: a `NewDigit` turn at a non-fixed cell runs the candidate
eliminator with exactly the claimed scope — every peer in AutoCandidates
mode loses bit `d` from its auto set, peers in ManualCandidates or Digit
mode keep both candidate sets, non-peers and the placing cell keep both
candidate sets — and the turns whose result is not a placed digit
(`NewCandidate`, `CleanCell`) change no other cell's candidate sets. -/
theorem C4_kick_scope (b : Board) (flag : Bool) (p : Pos) (d : Nat)
    (hf : (b p).fixed = false) :
    (∀ q : Pos, q ≠ p → SameUnit p q → (b q).mode = CellMode.AutoCandidates →
        (newDigitTurn b flag p d q).auto = (b q).auto.erase d ∧
          (newDigitTurn b flag p d q).manual = (b q).manual) ∧
      (∀ q : Pos, q ≠ p → SameUnit p q → (b q).mode ≠ CellMode.AutoCandidates →
        (newDigitTurn b flag p d q).auto = (b q).auto ∧
          (newDigitTurn b flag p d q).manual = (b q).manual) ∧
      (∀ q : Pos, ¬SameUnit p q →
        (newDigitTurn b flag p d q).auto = (b q).auto ∧
          (newDigitTurn b flag p d q).manual = (b q).manual) ∧
      ((newDigitTurn b flag p d p).auto = (b p).auto ∧
        (newDigitTurn b flag p d p).manual = (b p).manual) ∧
      (∀ q : Pos, q ≠ p →
        (newCandidateTurn b flag p d q).auto = (b q).auto ∧
          (newCandidateTurn b flag p d q).manual = (b q).manual ∧
          (cleanCellTurn b flag p q).auto = (b q).auto ∧
          (cleanCellTurn b flag p q).manual = (b q).manual) := by
  have ht : newDigitTurn b flag p d =
      kickCandidates (processPending (checkConflict (onNewDigitBoard b p d) p d) p
        (newDigitPending b p)) flag p := by
    unfold newDigitTurn
    simp [hf]
  set B3 := processPending (checkConflict (onNewDigitBoard b p d) p d) p
    (newDigitPending b p) with hB3
  have hautoq : ∀ q, (B3 q).auto = (b q).auto := by
    intro q
    rw [hB3, processPending_auto, checkConflict_auto]
    by_cases hq : q = p
    · subst hq; simp [onNewDigitBoard, hf]
    · simp [onNewDigitBoard, hq]
  have hmanq : ∀ q, (B3 q).manual = (b q).manual := by
    intro q
    rw [hB3, processPending_manual, checkConflict_manual]
    by_cases hq : q = p
    · subst hq; simp [onNewDigitBoard, hf]
    · simp [onNewDigitBoard, hq]
  have hmodeq : ∀ q, q ≠ p → (B3 q).mode = (b q).mode := by
    intro q hq
    rw [hB3, processPending_mode, checkConflict_mode]
    simp [onNewDigitBoard, hq]
  have hcur : (B3 p).current flag = CellState.Digit d := by
    have h1 : (B3 p).mode = CellMode.Digit := by
      rw [hB3, processPending_mode, checkConflict_mode]
      simp [onNewDigitBoard, hf]
    have h2 : (B3 p).digit = some d := by
      rw [hB3, processPending_digit, checkConflict_digit]
      simp [onNewDigitBoard, hf]
    unfold Cell.current
    rw [h1, h2]
    rfl
  refine ⟨?_, ?_, ?_, ?_, ?_⟩
  · intro q hq hsu hm
    have hm3 : (B3 q).mode = CellMode.AutoCandidates := by rw [hmodeq q hq, hm]
    rw [ht, kick_peer_auto hcur hq hsu hm3]
    exact ⟨by simp [hautoq q], by simp [hmanq q]⟩
  · intro q hq hsu hm
    have hm3 : (B3 q).mode ≠ CellMode.AutoCandidates := by rw [hmodeq q hq]; exact hm
    rw [ht, kick_peer_nonauto hcur hm3]
    exact ⟨hautoq q, hmanq q⟩
  · intro q hsu
    have hcond : ¬(q ≠ p ∧ SameUnit p q) := fun hc => hsu hc.2
    rw [ht, kick_notpeer hcond]
    exact ⟨hautoq q, hmanq q⟩
  · have hcond : ¬(p ≠ p ∧ SameUnit p p) := fun hc => hc.1 rfl
    rw [ht, kick_notpeer hcond]
    exact ⟨hautoq p, hmanq p⟩
  · intro q hq
    rw [newCandidateTurn_eq hf, cleanCellTurn_eq hf]
    refine ⟨?_, ?_, ?_, ?_⟩
    · rw [processPending_auto]; simp [onNewCandidateBoard, hq]
    · rw [processPending_manual]; simp [onNewCandidateBoard, hq]
    · rw [processPending_auto]; simp [onCleanCellBoard, hq]
    · rw [processPending_manual]; simp [onCleanCellBoard, hq]

theorem C4_kick_scope_w :
    (newDigitTurn exampleBoardA false 2 5 3).auto = ((exampleBoardA 3).auto).erase 5 :=
  ((C4_kick_scope exampleBoardA false 2 5 (by decide)).1 3 (by decide) (by decide)
    (by decide)).1

/-- C6 counterexample: replacing the 3 at cell 0 by 5 while the row peer
at cell 1 holds 5.  Under the spec's order (removal fully processed before
the commit, `specOrderedNewDigitTurn`) cell 0 would end with conflict set
{0, 1}; the code's deferred order ends with the empty set, because
`remove_conflict` runs after `check_conflict` recorded the new conflict
and clears it away.  The two orders are observably different, so the
removal is not processed before the new state is committed. -/
theorem C6_removal_order_cex :
    (newDigitTurn exampleBoardA false 0 5 0).conflicts = (∅ : Finset Pos) ∧
      (specOrderedNewDigitTurn exampleBoardA false 0 5 0).conflicts =
        ({0, 1} : Finset Pos) ∧
      (newDigitTurn exampleBoardA false 0 5 0).conflicts ≠
        (specOrderedNewDigitTurn exampleBoardA false 0 5 0).conflicts := by
  refine ⟨by decide, by decide, by decide⟩

/-- C6 amended: the deferred `RemoveDigit(old)` is processed only after
the triggering transition's new state is committed and after conflict
detection for the new digit ran; consequently a cell that replaces a
placed digit always ends the turn with an empty conflict set, while
same-unit peers holding the new digit still end the turn recording the
placing cell. -/
theorem C6_removal_after_commit (b : Board) (flag : Bool) (p : Pos) (d old : Nat)
    (hf : (b p).fixed = false) (hold : (b p).digit = some old) :
    (newDigitTurn b flag p d p).conflicts = (∅ : Finset Pos) ∧
      (∀ q : Pos, q ≠ p → SameUnit p q → (b q).digit = some d → d ≠ old →
        p ∈ (newDigitTurn b flag p d q).conflicts) := by
  have ht : newDigitTurn b flag p d =
      kickCandidates (removeConflict (checkConflict (onNewDigitBoard b p d) p d) p old)
        flag p := by
    unfold newDigitTurn
    simp [hf, newDigitPending, hold, processPending]
  constructor
  · rw [ht, kick_conflicts]
    simp [removeConflict]
  · intro q hq hsu hqd hne
    rw [ht, kick_conflicts]
    have hXd : (checkConflict (onNewDigitBoard b p d) p d q).digit = some d := by
      rw [checkConflict_digit]
      simp [onNewDigitBoard, hq, hqd]
    have hcond : ¬(SameUnit p q ∧
        (checkConflict (onNewDigitBoard b p d) p d q).digit = some old) := by
      rintro ⟨-, h2⟩
      rw [hXd] at h2
      exact hne (Option.some.inj h2)
    have hrc : removeConflict (checkConflict (onNewDigitBoard b p d) p d) p old q =
        checkConflict (onNewDigitBoard b p d) p d q := by
      simp [removeConflict, hq, hcond]
    rw [hrc]
    have hq1 : q ∈ conflictPeers (onNewDigitBoard b p d) p d := by
      rw [mem_conflictPeers]
      refine ⟨hsu, ?_, hq⟩
      simp [onNewDigitBoard, hq, hqd]
    have hCne : conflictPeers (onNewDigitBoard b p d) p d ≠ ∅ := by
      intro h0
      rw [h0] at hq1
      exact absurd hq1 (Finset.not_mem_empty q)
    have hfix1 : ((onNewDigitBoard b p d) p).fixed = false := by
      simp [onNewDigitBoard, hf]
    have hcc : checkConflict (onNewDigitBoard b p d) p d q =
        { (onNewDigitBoard b p d) q with
          conflicts := insert p ((onNewDigitBoard b p d) q).conflicts } := by
      simp [checkConflict, hfix1, hCne, hq, hq1]
    rw [hcc]
    exact Finset.mem_insert_self p _

theorem C6_removal_after_commit_w :
    (newDigitTurn exampleBoardA false 0 5 0).conflicts = (∅ : Finset Pos) ∧
      (0 : Pos) ∈ (newDigitTurn exampleBoardA false 0 5 1).conflicts := by
  have h := C6_removal_after_commit exampleBoardA false 0 5 3 (by decide) (by decide)
  exact ⟨h.1, h.2 1 (by decide) (by decide) (by decide) (by decide)⟩

/-! ### Conflict-invariant preservation -/

theorem conflictInv_of_eq {b b' : Board}
    (hc : ∀ q, (b' q).conflicts = (b q).conflicts)
    (hd : ∀ q, (b' q).digit = (b q).digit)
    (h : ConflictInv b) : ConflictInv b' := by
  obtain ⟨hs, hcd, hsc⟩ := h
  refine ⟨fun x y => ?_, fun x y hxy hmem => ?_, fun x hmem => ?_⟩
  · rw [hc, hc]
    exact hs x y
  · rw [hc] at hmem
    have hh := hcd x y hxy hmem
    exact ⟨hh.1, by rw [hd]; exact hh.2.1, by rw [hd, hd]; exact hh.2.2⟩
  · rw [hc] at hmem
    rw [hd]
    exact hsc x hmem

theorem onNewDigitBoard_conflicts (b : Board) (p : Pos) (d : Nat) (q : Pos) :
    (onNewDigitBoard b p d q).conflicts = (b q).conflicts := by
  by_cases hq : q = p
  · subst hq
    by_cases hf : (b q).fixed = true
    · simp [onNewDigitBoard, hf]
    · have hf' : (b q).fixed = false := by simpa using hf
      simp [onNewDigitBoard, hf']
  · simp [onNewDigitBoard, hq]

theorem onNewCandidateBoard_conflicts (b : Board) (flag : Bool) (p : Pos) (d : Nat) (q : Pos) :
    (onNewCandidateBoard b flag p d q).conflicts = (b q).conflicts := by
  by_cases hq : q = p
  · subst hq
    by_cases hf : (b q).fixed = true
    · simp [onNewCandidateBoard, hf]
    · have hf' : (b q).fixed = false := by simpa using hf
      cases flag <;> cases hm : (b q).mode <;> simp [onNewCandidateBoard, hf', hm]
  · simp [onNewCandidateBoard, hq]

theorem onCleanCellBoard_conflicts (b : Board) (flag : Bool) (p : Pos) (q : Pos) :
    (onCleanCellBoard b flag p q).conflicts = (b q).conflicts := by
  by_cases hq : q = p
  · subst hq
    by_cases hf : (b q).fixed = true
    · simp [onCleanCellBoard, hf]
    · have hf' : (b q).fixed = false := by simpa using hf
      cases flag <;> cases hm : (b q).mode <;> simp [onCleanCellBoard, hf', hm]
  · simp [onCleanCellBoard, hq]

/-- Conflict detection after a fresh placement (the placing cell held no
digit before) preserves the conflict invariant: the detector adds exactly
the symmetric pairs for the new digit plus the self entry. -/
theorem conflictInv_checkConflict_fresh {b b1 : Board} {p : Pos} {d : Nat}
    (hinv : ConflictInv b) (hdig : (b p).digit = none)
    (hfix1 : (b1 p).fixed = false)
    (hc1 : ∀ q, (b1 q).conflicts = (b q).conflicts)
    (hd1 : ∀ q, q ≠ p → (b1 q).digit = (b q).digit)
    (hdp : (b1 p).digit = some d) :
    ConflictInv (checkConflict b1 p d) := by
  obtain ⟨hs, hcd, hsc⟩ := hinv
  have memC : ∀ q, q ∈ conflictPeers b1 p d ↔
      SameUnit p q ∧ (b q).digit = some d ∧ q ≠ p := by
    intro q
    rw [mem_conflictPeers]
    constructor
    · rintro ⟨h1, h2, h3⟩
      rw [hd1 q h3] at h2
      exact ⟨h1, h2, h3⟩
    · rintro ⟨h1, h2, h3⟩
      exact ⟨h1, by rw [hd1 q h3]; exact h2, h3⟩
  have hconfp : (b p).conflicts = ∅ := by
    rw [Finset.eq_empty_iff_forall_not_mem]
    intro x hx
    by_cases hxp : x = p
    · subst hxp
      exact hsc x hx hdig
    · exact ((hcd x p hxp hx).2.1) hdig
  have F1 : ∀ z, z ≠ p → p ∉ (b z).conflicts := by
    intro z hz hmem
    have h := hcd p z (fun h => hz h.symm) hmem
    exact h.2.1 (by rw [← h.2.2]; exact hdig)
  by_cases hC : conflictPeers b1 p d = ∅
  · have hK : checkConflict b1 p d = b1 := by
      funext q
      simp [checkConflict, hC]
    rw [hK]
    refine ⟨fun x y => ?_, fun x y hxy hmem => ?_, fun x hmem => ?_⟩
    · rw [hc1, hc1]
      exact hs x y
    · rw [hc1] at hmem
      have h := hcd x y hxy hmem
      by_cases hy : y = p
      · subst hy
        exact absurd hmem (by rw [hconfp]; exact Finset.not_mem_empty x)
      · by_cases hx : x = p
        · subst hx
          exact absurd hmem (F1 y hy)
        · exact ⟨h.1, by rw [hd1 y hy]; exact h.2.1,
            by rw [hd1 x hx, hd1 y hy]; exact h.2.2⟩
    · rw [hc1] at hmem
      by_cases hx : x = p
      · subst hx
        exact absurd hmem (by rw [hconfp]; exact Finset.not_mem_empty x)
      · rw [hd1 x hx]
        exact hsc x hmem
  · have hKc : ∀ q, (checkConflict b1 p d q).conflicts =
        if q = p then insert p (conflictPeers b1 p d)
        else if q ∈ conflictPeers b1 p d then insert p (b q).conflicts
        else (b q).conflicts := by
      intro q
      by_cases hq : q = p
      · subst hq
        simp [checkConflict, hfix1, hC, hc1, hconfp]
      · by_cases hqC : q ∈ conflictPeers b1 p d
        · simp [checkConflict, hfix1, hC, hq, hqC, hc1]
        · simp [checkConflict, hfix1, hC, hq, hqC, hc1]
    have hKd : ∀ q, (checkConflict b1 p d q).digit =
        if q = p then some d else (b q).digit := by
      intro q
      rw [checkConflict_digit]
      by_cases hq : q = p
      · subst hq
        rw [if_pos rfl]
        exact hdp
      · rw [if_neg hq]
        exact hd1 q hq
    refine ⟨fun x y => ?_, fun x y hxy hmem => ?_, fun x hmem => ?_⟩
    · rw [hKc, hKc]
      by_cases hx : x = p <;> by_cases hy : y = p
      · subst hx; subst hy
        exact Iff.rfl
      · subst hx
        rw [if_neg hy, if_pos rfl]
        constructor
        · intro hmem
          by_cases hyC : y ∈ conflictPeers b1 x d
          · exact Finset.mem_insert_of_mem hyC
          · rw [if_neg hyC] at hmem
            exact absurd hmem (F1 y hy)
        · intro hmem
          have hyC : y ∈ conflictPeers b1 x d := by
            rcases Finset.mem_insert.mp hmem with h | h
            · exact absurd h hy
            · exact h
          rw [if_pos hyC]
          exact Finset.mem_insert_self x _
      · subst hy
        rw [if_pos rfl, if_neg hx]
        constructor
        · intro hmem
          have hxC : x ∈ conflictPeers b1 y d := by
            rcases Finset.mem_insert.mp hmem with h | h
            · exact absurd h hx
            · exact h
          rw [if_pos hxC]
          exact Finset.mem_insert_self y _
        · intro hmem
          by_cases hxC : x ∈ conflictPeers b1 y d
          · exact Finset.mem_insert_of_mem hxC
          · rw [if_neg hxC] at hmem
            exact absurd hmem (F1 x hx)
      · rw [if_neg hx, if_neg hy]
        have e1 : (x ∈ if y ∈ conflictPeers b1 p d then insert p (b y).conflicts
            else (b y).conflicts) ↔ x ∈ (b y).conflicts := by
          by_cases hyC : y ∈ conflictPeers b1 p d
          · rw [if_pos hyC]
            simp [Finset.mem_insert, hx]
          · rw [if_neg hyC]
        have e2 : (y ∈ if x ∈ conflictPeers b1 p d then insert p (b x).conflicts
            else (b x).conflicts) ↔ y ∈ (b x).conflicts := by
          by_cases hxC : x ∈ conflictPeers b1 p d
          · rw [if_pos hxC]
            simp [Finset.mem_insert, hy]
          · rw [if_neg hxC]
        rw [e1, e2]
        exact hs x y
    · rw [hKc] at hmem
      rw [hKd, hKd]
      by_cases hy : y = p
      · subst hy
        rw [if_pos rfl] at hmem
        have hxC : x ∈ conflictPeers b1 y d := by
          rcases Finset.mem_insert.mp hmem with h | h
          · exact absurd h hxy
          · exact h
        obtain ⟨hsu, hdx, hxp⟩ := (memC x).mp hxC
        refine ⟨sameUnit_symm hsu, ?_, ?_⟩
        · rw [if_pos rfl]
          simp
        · rw [if_pos rfl, if_neg hxp, hdx]
      · rw [if_neg hy] at hmem
        by_cases hx : x = p
        · subst hx
          by_cases hyC : y ∈ conflictPeers b1 x d
          · obtain ⟨hsu, hdy, hyp⟩ := (memC y).mp hyC
            refine ⟨hsu, ?_, ?_⟩
            · rw [if_neg hy, hdy]
              simp
            · rw [if_pos rfl, if_neg hy, hdy]
          · rw [if_neg hyC] at hmem
            exact absurd hmem (F1 y hy)
        · have hmem' : x ∈ (b y).conflicts := by
            by_cases hyC : y ∈ conflictPeers b1 p d
            · rw [if_pos hyC] at hmem
              rcases Finset.mem_insert.mp hmem with h | h
              · exact absurd h hx
              · exact h
            · rwa [if_neg hyC] at hmem
          have h := hcd x y hxy hmem'
          refine ⟨h.1, ?_, ?_⟩
          · rw [if_neg hy]
            exact h.2.1
          · rw [if_neg hx, if_neg hy]
            exact h.2.2
    · rw [hKc] at hmem
      rw [hKd]
      by_cases hx : x = p
      · subst hx
        rw [if_pos rfl]
        simp
      · rw [if_neg hx] at hmem ⊢
        have hmem' : x ∈ (b x).conflicts := by
          by_cases hxC : x ∈ conflictPeers b1 p d
          · rw [if_pos hxC] at hmem
            rcases Finset.mem_insert.mp hmem with h | h
            · exact absurd h hx
            · exact h
          · rwa [if_neg hxC] at hmem
        exact hsc x hmem'

/-- Processing `DigitRemoved(old)` — after the handler already dropped the
digit at the removing cell — preserves the conflict invariant. -/
theorem conflictInv_removeConflict {b b1 : Board} {p : Pos} {old : Nat}
    (hinv : ConflictInv b) (hold : (b p).digit = some old)
    (hc1 : ∀ q, (b1 q).conflicts = (b q).conflicts)
    (hd1 : ∀ q, q ≠ p → (b1 q).digit = (b q).digit)
    (hdp : (b1 p).digit = none) :
    ConflictInv (removeConflict b1 p old) := by
  obtain ⟨hs, hcd, hsc⟩ := hinv
  have hRc : ∀ q, (removeConflict b1 p old q).conflicts =
      if q = p then (∅ : Finset Pos)
      else if SameUnit p q ∧ (b1 q).digit = some old then (b q).conflicts.erase p
      else (b q).conflicts := by
    intro q
    by_cases hq : q = p
    · subst hq
      simp [removeConflict]
    · by_cases hcnd : SameUnit p q ∧ (b1 q).digit = some old
      · simp [removeConflict, hq, hcnd, hc1]
      · simp [removeConflict, hq, hcnd, hc1]
  have G1 : ∀ z, z ≠ p → p ∈ (b z).conflicts →
      SameUnit p z ∧ (b z).digit = some old := by
    intro z hz hmem
    have h := hcd p z (fun h => hz h.symm) hmem
    refine ⟨h.1, ?_⟩
    rw [← h.2.2]
    exact hold
  have Hpn : ∀ z, p ∉ (removeConflict b1 p old z).conflicts := by
    intro z
    rw [hRc]
    by_cases hz : z = p
    · simp [hz]
    · rw [if_neg hz]
      by_cases hcnd : SameUnit p z ∧ (b1 z).digit = some old
      · rw [if_pos hcnd]
        exact Finset.not_mem_erase p _
      · rw [if_neg hcnd]
        intro hmem
        have hg := G1 z hz hmem
        exact hcnd ⟨hg.1, by rw [hd1 z hz]; exact hg.2⟩
  have e : ∀ z w : Pos, z ≠ p → w ≠ p →
      (z ∈ (removeConflict b1 p old w).conflicts ↔ z ∈ (b w).conflicts) := by
    intro z w hz hw
    rw [hRc, if_neg hw]
    by_cases hcnd : SameUnit p w ∧ (b1 w).digit = some old
    · rw [if_pos hcnd, Finset.mem_erase]
      simp [hz]
    · rw [if_neg hcnd]
  refine ⟨fun x y => ?_, fun x y hxy hmem => ?_, fun x hmem => ?_⟩
  · by_cases hx : x = p
    · subst hx
      constructor
      · intro hmem
        exact absurd hmem (Hpn y)
      · intro hmem
        rw [hRc, if_pos rfl] at hmem
        exact absurd hmem (Finset.not_mem_empty y)
    · by_cases hy : y = p
      · subst hy
        constructor
        · intro hmem
          rw [hRc, if_pos rfl] at hmem
          exact absurd hmem (Finset.not_mem_empty x)
        · intro hmem
          exact absurd hmem (Hpn x)
      · rw [e x y hx hy, e y x hy hx]
        exact hs x y
  · by_cases hx : x = p
    · exact absurd hmem (hx ▸ Hpn y)
    · by_cases hy : y = p
      · subst hy
        rw [hRc, if_pos rfl] at hmem
        exact absurd hmem (Finset.not_mem_empty x)
      · have hmem' : x ∈ (b y).conflicts := (e x y hx hy).mp hmem
        have h := hcd x y hxy hmem'
        refine ⟨h.1, ?_, ?_⟩
        · rw [removeConflict_digit, hd1 y hy]
          exact h.2.1
        · rw [removeConflict_digit, removeConflict_digit, hd1 x hx, hd1 y hy]
          exact h.2.2
  · by_cases hx : x = p
    · subst hx
      rw [hRc, if_pos rfl] at hmem
      exact absurd hmem (Finset.not_mem_empty x)
    · have hmem' : x ∈ (b x).conflicts := (e x x hx hx).mp hmem
      rw [removeConflict_digit, hd1 x hx]
      exact hsc x hmem'

set_option maxRecDepth 8000 in
/-- C3 counterexample: the pre-state satisfies the full conflict invariant
(symmetry included), yet a single `NewDigit` event — replacing the 3 at
cell 0 by 5 while the row peer at cell 1 holds 5 — ends with cell 0 in
cell 1's conflict set but not vice versa: the deferred `RemoveDigit(3)`
clears cell 0's freshly recorded conflicts after `check_conflict` ran, so
symmetry does not hold after every processed event. -/
theorem C3_symmetry_cex :
    ConflictInv exampleBoardA ∧
      (0 : Pos) ∈ (newDigitTurn exampleBoardA false 0 5 1).conflicts ∧
      (1 : Pos) ∉ (newDigitTurn exampleBoardA false 0 5 0).conflicts := by
  refine ⟨by decide, by decide, by decide⟩

/-- C3 amended: conflict-set symmetry — strengthened to the inductive
conflict invariant (symmetry, plus membership implying matching placed
digits of same-unit cells) — is preserved by every processed event except
a `NewDigit` that replaces an already-placed digit: events targeting
fixed cells, fresh placements, candidate toggles and clears all keep the
invariant. -/
theorem C3_symmetry_preserved_no_replace (b : Board) (flag : Bool) (p : Pos) (e : Event)
    (hinv : ConflictInv b)
    (hrep : ∀ d, e = Event.placeDigit d → (b p).fixed = true ∨ (b p).digit = none) :
    ConflictInv (applyEvent b flag p e) := by
  cases e with
  | placeDigit d =>
      show ConflictInv (newDigitTurn b flag p d)
      by_cases hf : (b p).fixed = true
      · rw [newDigitTurn_fixed hf]
        exact hinv
      · have hf' : (b p).fixed = false := by simpa using hf
        have hdig : (b p).digit = none := by
          rcases hrep d rfl with h | h
          · exact absurd h hf
          · exact h
        have ht : newDigitTurn b flag p d =
            kickCandidates (checkConflict (onNewDigitBoard b p d) p d) flag p := by
          unfold newDigitTurn
          simp [hf', newDigitPending, hdig, processPending]
        rw [ht]
        refine conflictInv_of_eq (fun q => kick_conflicts _ flag p q)
          (fun q => kick_digit _ flag p q) ?_
        refine conflictInv_checkConflict_fresh hinv hdig ?_
          (fun q => onNewDigitBoard_conflicts b p d q) ?_ ?_
        · simp [onNewDigitBoard, hf']
        · intro q hq
          simp [onNewDigitBoard, hq]
        · simp [onNewDigitBoard, hf']
  | toggleCandidate d =>
      show ConflictInv (newCandidateTurn b flag p d)
      by_cases hf : (b p).fixed = true
      · rw [newCandidateTurn_fixed hf]
        exact hinv
      · have hf' : (b p).fixed = false := by simpa using hf
        rw [newCandidateTurn_eq hf']
        cases hm : (b p).mode with
        | Digit =>
            cases hdg : (b p).digit with
            | none =>
                have hpend : newCandidatePending b p = none := by
                  simp [newCandidatePending, hf', hm, hdg]
                rw [hpend]
                show ConflictInv (onNewCandidateBoard b flag p d)
                refine conflictInv_of_eq
                  (fun q => onNewCandidateBoard_conflicts b flag p d q) ?_ hinv
                intro q
                by_cases hq : q = p
                · subst hq
                  cases flag <;> simp [onNewCandidateBoard, hf', hm, hdg]
                · simp [onNewCandidateBoard, hq]
            | some old =>
                have hpend : newCandidatePending b p = some old := by
                  simp [newCandidatePending, hf', hm, hdg]
                rw [hpend]
                show ConflictInv (removeConflict (onNewCandidateBoard b flag p d) p old)
                refine conflictInv_removeConflict hinv hdg
                  (fun q => onNewCandidateBoard_conflicts b flag p d q) ?_ ?_
                · intro q hq
                  simp [onNewCandidateBoard, hq]
                · cases flag <;> simp [onNewCandidateBoard, hf', hm]
        | AutoCandidates =>
            have hpend : newCandidatePending b p = none := by
              simp [newCandidatePending, hf', hm]
            rw [hpend]
            show ConflictInv (onNewCandidateBoard b flag p d)
            refine conflictInv_of_eq
              (fun q => onNewCandidateBoard_conflicts b flag p d q) ?_ hinv
            intro q
            by_cases hq : q = p
            · subst hq
              cases flag <;> simp [onNewCandidateBoard, hf', hm]
            · simp [onNewCandidateBoard, hq]
        | ManualCandidates =>
            have hpend : newCandidatePending b p = none := by
              simp [newCandidatePending, hf', hm]
            rw [hpend]
            show ConflictInv (onNewCandidateBoard b flag p d)
            refine conflictInv_of_eq
              (fun q => onNewCandidateBoard_conflicts b flag p d q) ?_ hinv
            intro q
            by_cases hq : q = p
            · subst hq
              cases flag <;> simp [onNewCandidateBoard, hf', hm]
            · simp [onNewCandidateBoard, hq]
  | clearCell =>
      show ConflictInv (cleanCellTurn b flag p)
      by_cases hf : (b p).fixed = true
      · rw [cleanCellTurn_fixed hf]
        exact hinv
      · have hf' : (b p).fixed = false := by simpa using hf
        rw [cleanCellTurn_eq hf']
        cases hm : (b p).mode with
        | Digit =>
            cases hdg : (b p).digit with
            | none =>
                have hpend : cleanCellPending b p = none := by
                  simp [cleanCellPending, hf', hm, hdg]
                rw [hpend]
                show ConflictInv (onCleanCellBoard b flag p)
                refine conflictInv_of_eq
                  (fun q => onCleanCellBoard_conflicts b flag p q) ?_ hinv
                intro q
                by_cases hq : q = p
                · subst hq
                  cases flag <;> simp [onCleanCellBoard, hf', hm, hdg]
                · simp [onCleanCellBoard, hq]
            | some old =>
                have hpend : cleanCellPending b p = some old := by
                  simp [cleanCellPending, hf', hm, hdg]
                rw [hpend]
                show ConflictInv (removeConflict (onCleanCellBoard b flag p) p old)
                refine conflictInv_removeConflict hinv hdg
                  (fun q => onCleanCellBoard_conflicts b flag p q) ?_ ?_
                · intro q hq
                  simp [onCleanCellBoard, hq]
                · cases flag <;> simp [onCleanCellBoard, hf', hm]
        | AutoCandidates =>
            have hpend : cleanCellPending b p = none := by
              simp [cleanCellPending, hf', hm]
            rw [hpend]
            show ConflictInv (onCleanCellBoard b flag p)
            refine conflictInv_of_eq
              (fun q => onCleanCellBoard_conflicts b flag p q) ?_ hinv
            intro q
            by_cases hq : q = p
            · subst hq
              cases flag <;> simp [onCleanCellBoard, hf', hm]
            · simp [onCleanCellBoard, hq]
        | ManualCandidates =>
            have hpend : cleanCellPending b p = none := by
              simp [cleanCellPending, hf', hm]
            rw [hpend]
            show ConflictInv (onCleanCellBoard b flag p)
            refine conflictInv_of_eq
              (fun q => onCleanCellBoard_conflicts b flag p q) ?_ hinv
            intro q
            by_cases hq : q = p
            · subst hq
              cases flag <;> simp [onCleanCellBoard, hf', hm]
            · simp [onCleanCellBoard, hq]

set_option maxRecDepth 8000 in
theorem C3_symmetry_preserved_no_replace_w :
    ConflictInv (applyEvent blankBoard false 0 (Event.placeDigit 5)) :=
  C3_symmetry_preserved_no_replace blankBoard false 0 (Event.placeDigit 5)
    (by decide) (fun _ _ => Or.inr rfl)

end BevySudoku
